import Mathlib

/-!
Shallow embedding of the chunked video-transcription pipeline of
`src/main.py`: the segmenter (`split_audio`), the transcription
aggregator (`transcribe_audio_chunks`), the accuracy scorer
(`compare_texts`), the per-unit orchestrator (`process_video_file`)
and the batch entry point (`main`).

External effects are made explicit: the filesystem is a state value
threaded through the functions, and the external collaborators
(audio extraction, chunk materialization, the recognition service,
transcript persistence) are oracles passed as parameters.  Durations
are rationals (the Python source computes with floats; the claims are
about the real-number arithmetic the code writes down).  Text is
`List Char`.
-/

namespace VTT

/-- Outcome of the single recognition attempt on one audio chunk, as
classified by the `try`/`except` arms of `transcribe_audio_chunks` in
`src/main.py`: `text s` is a successful `recognize_google` result,
`unrecognized` is `sr.UnknownValueError`, `requestFailed` is
`sr.RequestError`, and `unexpectedFailure` is the generic
`except Exception` arm. -/
inductive RecOutcome where
  | text (s : List Char)
  | unrecognized
  | requestFailed
  | unexpectedFailure
  deriving DecidableEq

/-- Whether an outcome carries recognized text. -/
def RecOutcome.isText : RecOutcome → Bool
  | .text _ => true
  | _ => false

/-- The text carried by an outcome, if any. -/
def RecOutcome.textOf : RecOutcome → Option (List Char)
  | .text s => some s
  | _ => none

/-- The intermediate files of one unit of work: the extracted audio
file (`output/{base}_audio.wav`), the materialized chunk files
(`output/{base}_audio_chunk_{i}.wav`, identified here by their index)
and the persisted transcript (`output/{base}_transcript.txt`). -/
structure FS where
  audio : Bool
  chunk : ℕ → Bool
  transcript : Bool

/-- The filesystem at the start of a unit of work: none of the unit's
intermediate files exist. -/
def FS.empty : FS := ⟨false, fun _ => false, false⟩

/-- Effect of `audio.write_audiofile(audio_path)` in `extract_audio`. -/
def writeAudio (fs : FS) : FS := { fs with audio := true }

/-- Effect of the `os.remove(audio_path)` in the `finally` block of
`process_video_file` (guarded there by `os.path.exists`, so the net
effect is that the audio file is absent afterwards). -/
def removeAudio (fs : FS) : FS := { fs with audio := false }

/-- Effect of `chunk.write_audiofile(chunk_path)` in `split_audio`. -/
def writeChunk (i : ℕ) (fs : FS) : FS :=
  { fs with chunk := fun n => if n = i then true else fs.chunk n }

/-- Effect of `os.remove(chunk_path)` in the `finally` block of the
loop of `transcribe_audio_chunks`. -/
def removeChunk (i : ℕ) (fs : FS) : FS :=
  { fs with chunk := fun n => if n = i then false else fs.chunk n }

/-- Effect of writing the transcript file in `process_video_file`. -/
def writeTranscript (fs : FS) : FS := { fs with transcript := true }

/-- The chunk descriptors computed by the loop of `split_audio`
(`src/main.py` lines 72-76): `num_chunks = math.ceil(duration /
chunk_duration)`, and chunk `i` has `start_time = i * chunk_duration`
and `end_time = min((i + 1) * chunk_duration, duration)`. -/
def chunkSpans (D C : ℚ) : List (ℕ × ℚ × ℚ) :=
  (List.range (⌈D / C⌉).toNat).map fun i =>
    (i, (i : ℚ) * C, min (((i : ℚ) + 1) * C) D)

/-- The materialization loop of `split_audio`: each chunk in turn is
written to disk (`chunk.write_audiofile`); `matFail i = true` means
writing chunk `i` raises, which aborts the loop (the `except` arm of
`split_audio` catches it).  Returns `none` for the exceptional exit
together with the filesystem as left behind (chunks written so far
stay on disk), or `some` of the list of chunk files in order. -/
def splitGo (matFail : ℕ → Bool) : List (ℕ × ℚ × ℚ) → FS → Option (List ℕ) × FS
  | [], fs => (some [], fs)
  | (i, _, _) :: rest, fs =>
    if matFail i then (none, fs)
    else
      ((splitGo matFail rest (writeChunk i fs)).1.map (i :: ·),
        (splitGo matFail rest (writeChunk i fs)).2)

/-- `split_audio` of `src/main.py` (lines 66-87): computes the chunk
spans, materializes them in order, and returns the list of chunk file
paths; on any exception it returns `[]` (the local `chunks` list is
discarded by the `except` arm). -/
def split_audio (D C : ℚ) (matFail : ℕ → Bool) (fs : FS) : List ℕ × FS :=
  ((splitGo matFail (chunkSpans D C) fs).1.getD [],
    (splitGo matFail (chunkSpans D C) fs).2)

/-- The loop of `transcribe_audio_chunks` (`src/main.py` lines
94-113): for each chunk file, one recognition attempt is made whose
outcome is `out i`; a `text` outcome appends its fragment to
`full_text`, every other outcome is printed and skipped; the `finally`
block removes the chunk file.  Returns the per-chunk results (the
spec's ChunkResults), the collected text fragments, and the
filesystem. -/
def transGo (out : ℕ → RecOutcome) :
    List ℕ → FS → List (ℕ × RecOutcome) × List (List Char) × FS
  | [], fs => ([], [], fs)
  | i :: rest, fs =>
    ((i, out i) :: (transGo out rest (removeChunk i fs)).1,
      (match out i with
        | .text s => s :: (transGo out rest (removeChunk i fs)).2.1
        | _ => (transGo out rest (removeChunk i fs)).2.1),
      (transGo out rest (removeChunk i fs)).2.2)

/-- `transcribe_audio_chunks` of `src/main.py` (lines 89-115): runs
the per-chunk loop and returns `" ".join(full_text)` as the
transcript, together with the per-chunk results and the filesystem. -/
def transcribe_audio_chunks (out : ℕ → RecOutcome) (chunks : List ℕ) (fs : FS) :
    List (ℕ × RecOutcome) × List Char × FS :=
  ((transGo out chunks fs).1,
    List.intercalate [' '] (transGo out chunks fs).2.1,
    (transGo out chunks fs).2.2)

/-- Unit-level failure classification: one value per `return None`
site of `process_video_file`, keyed by the diagnostic printed there
(`extractionFailed` for a missing video or "Failed to extract audio",
`segmentationFailed` for "Failed to split audio",
`noTranscribableAudio` for "No text was transcribed",
`persistenceFailed` for "Error saving transcript"). -/
inductive FailReason where
  | extractionFailed
  | segmentationFailed
  | noTranscribableAudio
  | persistenceFailed
  deriving DecidableEq

/-- Terminal state of one unit of work in `process_video_file`:
`completed` returns the transcript, `failed` is a `return None`. -/
inductive UnitResult where
  | completed (t : List Char)
  | failed (r : FailReason)
  deriving DecidableEq

/-- The body of `process_video_file` after a successful audio
extraction of duration `D` (`src/main.py` lines 141-177): segment,
check for an empty chunk list, transcribe, check for an empty
transcript, persist; every exit path runs the `finally` block, which
removes the audio file. -/
def process_some (D : ℚ) (matFail : ℕ → Bool)
    (out : ℕ → RecOutcome) (persistOk : Bool) (fs0 : FS) : UnitResult × FS :=
  if (split_audio D 60 matFail (writeAudio fs0)).1 = [] then
    (.failed .segmentationFailed,
      removeAudio (split_audio D 60 matFail (writeAudio fs0)).2)
  else
    if (transcribe_audio_chunks out
          (split_audio D 60 matFail (writeAudio fs0)).1
          (split_audio D 60 matFail (writeAudio fs0)).2).2.1 = [] then
      (.failed .noTranscribableAudio,
        removeAudio (transcribe_audio_chunks out
          (split_audio D 60 matFail (writeAudio fs0)).1
          (split_audio D 60 matFail (writeAudio fs0)).2).2.2)
    else if persistOk then
      (.completed (transcribe_audio_chunks out
          (split_audio D 60 matFail (writeAudio fs0)).1
          (split_audio D 60 matFail (writeAudio fs0)).2).2.1,
        removeAudio (writeTranscript (transcribe_audio_chunks out
          (split_audio D 60 matFail (writeAudio fs0)).1
          (split_audio D 60 matFail (writeAudio fs0)).2).2.2))
    else
      (.failed .persistenceFailed,
        removeAudio (transcribe_audio_chunks out
          (split_audio D 60 matFail (writeAudio fs0)).1
          (split_audio D 60 matFail (writeAudio fs0)).2).2.2)

/-- `process_video_file` of `src/main.py` (lines 123-177).
`extracted = none` models a missing video file or a failing
`extract_audio` (no audio file is produced); `extracted = some D`
models a successfully extracted audio file of duration `D`.  The
chunk duration is the source's default of 60 seconds.  `persistOk`
models whether writing the transcript file succeeds. -/
def process_video_file (extracted : Option ℚ) (matFail : ℕ → Bool)
    (out : ℕ → RecOutcome) (persistOk : Bool) (fs0 : FS) : UnitResult × FS :=
  match extracted with
  | none => (.failed .extractionFailed, removeAudio fs0)
  | some D => process_some D matFail out persistOk fs0

theorem process_video_file_some (D : ℚ) (matFail : ℕ → Bool)
    (out : ℕ → RecOutcome) (persistOk : Bool) (fs0 : FS) :
    process_video_file (some D) matFail out persistOk fs0 =
      process_some D matFail out persistOk fs0 := rfl

/-- The inputs of one `process_video_file` call made by the batch
loop of `main`. -/
structure PVFInput where
  extracted : Option ℚ
  matFail : ℕ → Bool
  out : ℕ → RecOutcome
  persistOk : Bool

/-- Whether `process_video_file` returns a truthy value for this
input (`if process_video_file(video_path): successful += 1` in
`main`); the function returns the transcript string on success and
`None` on failure, and a returned transcript is checked non-empty
before being returned, so truthiness is exactly `completed`. -/
def runOk (x : PVFInput) : Bool :=
  match (process_video_file x.extracted x.matFail x.out x.persistOk FS.empty).1 with
  | .completed _ => true
  | .failed _ => false

/-- Observable behaviour of one run of `main`: the process exit
status and the final summary line (`successful`, `total`), `none`
when no summary line is printed. -/
structure MainOut where
  exitCode : ℕ
  summary : Option (ℕ × ℕ)
  deriving DecidableEq

/-- `main` of `src/main.py` (lines 179-203).  `mkdirsOk` models
whether `os.makedirs`/`os.listdir` succeed; a raised exception is
caught by the top-level `except Exception`, which prints a message
and returns normally, so the process still exits with status 0.  With
no eligible files, "No MP4 files found" is printed and no summary
appears; otherwise every listed file is processed once and the
summary `successful/total` is printed. -/
def main (mkdirsOk : Bool) (files : List PVFInput) : MainOut :=
  if mkdirsOk = false then ⟨0, none⟩
  else
    match files with
    | [] => ⟨0, none⟩
    | _ :: _ => ⟨0, some (files.countP runOk, files.length)⟩

/-- Longest common prefix length of two character lists. -/
def lcpLen : List Char → List Char → ℕ
  | x :: xs, y :: ys => if x = y then lcpLen xs ys + 1 else 0
  | _, _ => 0

/-- The window `[lo, hi)` of a list, as used by the sequence matcher's
bounded search. -/
def winSlice (l : List Char) (lo hi : ℕ) : List Char := (l.take hi).drop lo

/-- Modelled from the spec: one step of the scan for the longest
matching block — `src/main.py` delegates `compare_texts` to the
standard library's `difflib.SequenceMatcher`, whose code is not under
`src/`; the spec (section 4.3) pins it down as Ratcliff/Obershelp-style
longest-first block matching.  Candidate `(i, j)` matches for
`lcpLen` characters inside the window; a strictly longer match
replaces the best one, so the earliest maximal match (earliest in
`a`, then earliest in `b`) is kept, as `difflib` documents. -/
def innerStep (a b : List Char) (ahi bhi i : ℕ)
    (best : ℕ × ℕ × ℕ) (j : ℕ) : ℕ × ℕ × ℕ :=
  if best.2.2 < lcpLen (winSlice a i ahi) (winSlice b j bhi) then
    (i, j, lcpLen (winSlice a i ahi) (winSlice b j bhi))
  else best

/-- Modelled from the spec: the scan over all start positions `j` in
`b`'s window for a fixed start position `i` in `a`'s window. -/
def outerStep (a b : List Char) (ahi blo bhi : ℕ)
    (best : ℕ × ℕ × ℕ) (i : ℕ) : ℕ × ℕ × ℕ :=
  (List.range' blo (bhi - blo)).foldl (innerStep a b ahi bhi i) best

/-- Modelled from the spec: `find_longest_match` over the windows
`[alo, ahi)` of `a` and `[blo, bhi)` of `b` — returns `(i, j, k)`,
the earliest maximal matching block, with `k = 0` (at `(alo, blo)`)
when the windows have no common block. -/
def findLongestMatch (a b : List Char) (alo ahi blo bhi : ℕ) : ℕ × ℕ × ℕ :=
  (List.range' alo (ahi - alo)).foldl (outerStep a b ahi blo bhi) (alo, blo, 0)

/-- Modelled from the spec: the recursive longest-first decomposition
into non-overlapping matching blocks (`get_matching_blocks`): take
the longest match of the window, then recurse on the part before it
and the part after it.  The fuel argument only serves structural
termination; `(ahi - alo) + (bhi - blo) + 1` is always sufficient
because each recursive call strictly shrinks the window. -/
def mbGo (a b : List Char) : ℕ → ℕ → ℕ → ℕ → ℕ → List (ℕ × ℕ × ℕ)
  | 0, _, _, _, _ => []
  | fuel + 1, alo, ahi, blo, bhi =>
    if 0 < (findLongestMatch a b alo ahi blo bhi).2.2 then
      mbGo a b fuel alo (findLongestMatch a b alo ahi blo bhi).1 blo
          (findLongestMatch a b alo ahi blo bhi).2.1 ++
        findLongestMatch a b alo ahi blo bhi ::
          mbGo a b fuel
            ((findLongestMatch a b alo ahi blo bhi).1 +
              (findLongestMatch a b alo ahi blo bhi).2.2)
            ahi
            ((findLongestMatch a b alo ahi blo bhi).2.1 +
              (findLongestMatch a b alo ahi blo bhi).2.2)
            bhi
    else []

/-- Modelled from the spec: the list of matching blocks of two whole
sequences, in order (the sentinel `(len(a), len(b), 0)` block and the
merging of adjacent blocks done by `difflib` are omitted; both
preserve the total matched size used by `ratio`). -/
def get_matching_blocks (a b : List Char) : List (ℕ × ℕ × ℕ) :=
  mbGo a b (a.length + b.length + 1) 0 a.length 0 b.length

/-- Total size `M` of the matching blocks. -/
def matchSum (l : List (ℕ × ℕ × ℕ)) : ℕ := (l.map fun x => x.2.2).sum

/-- Modelled from the spec: `SequenceMatcher.ratio()` — `2 * M / T`
where `T` is the combined length of both sequences and `M` the total
size of the matching blocks (`difflib` returns `1.0` when both
sequences are empty; `compare_texts` never reaches that case). -/
def seqRatio (a b : List Char) : ℚ :=
  if a.length + b.length = 0 then 1
  else 2 * (matchSum (get_matching_blocks a b) : ℚ) /
    ((a.length : ℚ) + (b.length : ℚ))

/-- Python's `str.lower()`, applied character by character (the
claims only depend on lowercasing being a function of each
character). -/
def lowerStr (s : List Char) : List Char := s.map Char.toLower

/-- `compare_texts` of `src/main.py` (lines 117-121):
`if not original or not transcribed: return 0.0`, else the
`SequenceMatcher` ratio of the two lowercased strings. -/
def compare_texts (original transcribed : List Char) : ℚ :=
  if original = [] ∨ transcribed = [] then 0
  else seqRatio (lowerStr original) (lowerStr transcribed)

/-! ### Helper lemmas about the sequence matcher -/

theorem lcpLen_self (l : List Char) : lcpLen l l = l.length := by
  induction l with
  | nil => rfl
  | cons x xs ih => simp [lcpLen, ih]

theorem lcpLen_le_left : ∀ xs ys : List Char, lcpLen xs ys ≤ xs.length
  | [], _ => by simp [lcpLen]
  | _ :: _, [] => by simp [lcpLen]
  | x :: xs, y :: ys => by
    by_cases h : x = y
    · simpa [lcpLen, h] using lcpLen_le_left xs ys
    · simp [lcpLen, h]

theorem lcpLen_le_right : ∀ xs ys : List Char, lcpLen xs ys ≤ ys.length
  | [], _ => by simp [lcpLen]
  | _ :: _, [] => by simp [lcpLen]
  | x :: xs, y :: ys => by
    by_cases h : x = y
    · simpa [lcpLen, h] using lcpLen_le_right xs ys
    · simp [lcpLen, h]

theorem winSlice_length (l : List Char) (lo hi : ℕ) :
    (winSlice l lo hi).length = min hi l.length - lo := by
  simp [winSlice]

theorem winSlice_self (l : List Char) : winSlice l 0 l.length = l := by
  simp [winSlice]

/-- Invariant preservation along a left fold. -/
theorem foldl_inv {β γ : Type} (P : γ → Prop) (f : γ → β → γ) :
    ∀ (l : List β) (init : γ), P init →
      (∀ acc x, x ∈ l → P acc → P (f acc x)) → P (l.foldl f init)
  | [], init, h, _ => h
  | x :: xs, init, h, hstep =>
    foldl_inv P f xs (f init x) (hstep init x (by simp) h)
      fun acc y hy => hstep acc y (by simp [hy])

/-- A fold by `innerStep` never moves when no candidate beats the
current best. -/
theorem innerFold_fixed (a b : List Char) (ahi bhi i : ℕ) :
    ∀ (js : List ℕ) (best : ℕ × ℕ × ℕ),
      (∀ j ∈ js, lcpLen (winSlice a i ahi) (winSlice b j bhi) ≤ best.2.2) →
      js.foldl (innerStep a b ahi bhi i) best = best
  | [], best, _ => rfl
  | j :: js, best, h => by
    have hj : ¬ best.2.2 < lcpLen (winSlice a i ahi) (winSlice b j bhi) :=
      not_lt.mpr (h j (by simp))
    rw [List.foldl_cons, innerStep, if_neg hj]
    exact innerFold_fixed a b ahi bhi i js best fun j' hj' => h j' (by simp [hj'])

/-- A fold by `outerStep` never moves when no candidate beats the
current best. -/
theorem outerFold_fixed (a b : List Char) (ahi blo bhi : ℕ) :
    ∀ (is : List ℕ) (best : ℕ × ℕ × ℕ),
      (∀ i j, lcpLen (winSlice a i ahi) (winSlice b j bhi) ≤ best.2.2) →
      is.foldl (outerStep a b ahi blo bhi) best = best
  | [], _, _ => rfl
  | i :: is, best, h => by
    rw [List.foldl_cons]
    rw [show outerStep a b ahi blo bhi best i = best from
      innerFold_fixed a b ahi bhi i _ best fun j _ => h i j]
    exact outerFold_fixed a b ahi blo bhi is best h

/-- Window bounds of the block returned by `findLongestMatch`. -/
theorem findLongestMatch_bounds (a b : List Char) (alo ahi blo bhi : ℕ) :
    alo ≤ (findLongestMatch a b alo ahi blo bhi).1 ∧
    blo ≤ (findLongestMatch a b alo ahi blo bhi).2.1 ∧
    (0 < (findLongestMatch a b alo ahi blo bhi).2.2 →
      (findLongestMatch a b alo ahi blo bhi).1 +
        (findLongestMatch a b alo ahi blo bhi).2.2 ≤ ahi ∧
      (findLongestMatch a b alo ahi blo bhi).2.1 +
        (findLongestMatch a b alo ahi blo bhi).2.2 ≤ bhi) := by
  unfold findLongestMatch
  apply foldl_inv
    (fun best : ℕ × ℕ × ℕ => alo ≤ best.1 ∧ blo ≤ best.2.1 ∧
      (0 < best.2.2 → best.1 + best.2.2 ≤ ahi ∧ best.2.1 + best.2.2 ≤ bhi))
  · exact ⟨le_refl _, le_refl _, fun h => absurd h (by simp)⟩
  · intro acc i hi hacc
    unfold outerStep
    apply foldl_inv
      (fun best : ℕ × ℕ × ℕ => alo ≤ best.1 ∧ blo ≤ best.2.1 ∧
        (0 < best.2.2 → best.1 + best.2.2 ≤ ahi ∧ best.2.1 + best.2.2 ≤ bhi))
    · exact hacc
    · intro best j hj hbest
      unfold innerStep
      by_cases hlt : best.2.2 < lcpLen (winSlice a i ahi) (winSlice b j bhi)
      · rw [if_pos hlt]
        have hia : alo ≤ i ∧ i < alo + (ahi - alo) := by
          simpa using List.mem_range'_1.mp hi
        have hjb : blo ≤ j ∧ j < blo + (bhi - blo) := by
          simpa using List.mem_range'_1.mp hj
        refine ⟨hia.1, hjb.1, fun _ => ?_⟩
        have h1 : lcpLen (winSlice a i ahi) (winSlice b j bhi) ≤
            min ahi a.length - i := by
          simpa [winSlice_length] using
            lcpLen_le_left (winSlice a i ahi) (winSlice b j bhi)
        have h2 : lcpLen (winSlice a i ahi) (winSlice b j bhi) ≤
            min bhi b.length - j := by
          simpa [winSlice_length] using
            lcpLen_le_right (winSlice a i ahi) (winSlice b j bhi)
        have h3 : min ahi a.length ≤ ahi := min_le_left _ _
        have h4 : min bhi b.length ≤ bhi := min_le_left _ _
        show i + lcpLen (winSlice a i ahi) (winSlice b j bhi) ≤ ahi ∧
          j + lcpLen (winSlice a i ahi) (winSlice b j bhi) ≤ bhi
        constructor <;> omega
      · rw [if_neg hlt]; exact hbest

theorem matchSum_append (l₁ l₂ : List (ℕ × ℕ × ℕ)) :
    matchSum (l₁ ++ l₂) = matchSum l₁ + matchSum l₂ := by
  simp [matchSum]

theorem matchSum_cons (x : ℕ × ℕ × ℕ) (l : List (ℕ × ℕ × ℕ)) :
    matchSum (x :: l) = x.2.2 + matchSum l := by
  simp [matchSum]

/-- The matching blocks are non-overlapping, longest-first blocks of
the window, so their total size is bounded by each window's width. -/
theorem mbGo_sum_le (a b : List Char) :
    ∀ (fuel alo ahi blo bhi : ℕ),
      matchSum (mbGo a b fuel alo ahi blo bhi) ≤ ahi - alo ∧
      matchSum (mbGo a b fuel alo ahi blo bhi) ≤ bhi - blo
  | 0, alo, ahi, blo, bhi => by simp [mbGo, matchSum]
  | fuel + 1, alo, ahi, blo, bhi => by
    rw [mbGo]
    by_cases hk : 0 < (findLongestMatch a b alo ahi blo bhi).2.2
    · rw [if_pos hk]
      have hb := findLongestMatch_bounds a b alo ahi blo bhi
      have hbk := hb.2.2 hk
      have hl := mbGo_sum_le a b fuel alo (findLongestMatch a b alo ahi blo bhi).1
        blo (findLongestMatch a b alo ahi blo bhi).2.1
      have hr := mbGo_sum_le a b fuel
        ((findLongestMatch a b alo ahi blo bhi).1 +
          (findLongestMatch a b alo ahi blo bhi).2.2) ahi
        ((findLongestMatch a b alo ahi blo bhi).2.1 +
          (findLongestMatch a b alo ahi blo bhi).2.2) bhi
      rw [matchSum_append, matchSum_cons]
      obtain ⟨h1, h2, _⟩ := hb
      obtain ⟨h3, h4⟩ := hbk
      constructor <;> omega
    · rw [if_neg hk]; simp [matchSum]

theorem matchSum_le_left (a b : List Char) :
    matchSum (get_matching_blocks a b) ≤ a.length := by
  simpa using (mbGo_sum_le a b (a.length + b.length + 1) 0 a.length 0 b.length).1

theorem matchSum_le_right (a b : List Char) :
    matchSum (get_matching_blocks a b) ≤ b.length := by
  simpa using (mbGo_sum_le a b (a.length + b.length + 1) 0 a.length 0 b.length).2

/-- On an empty window, `findLongestMatch` returns the empty match. -/
theorem findLongestMatch_empty (a b : List Char) (lo lo' : ℕ) :
    findLongestMatch a b lo lo lo' lo' = (lo, lo', 0) := by
  unfold findLongestMatch
  rw [Nat.sub_self]
  rfl

/-- On an empty window, no matching blocks are produced. -/
theorem mbGo_empty (a b : List Char) :
    ∀ (fuel lo lo' : ℕ), mbGo a b fuel lo lo lo' lo' = []
  | 0, _, _ => rfl
  | fuel + 1, lo, lo' => by
    rw [mbGo, findLongestMatch_empty]
    simp

/-- Any candidate match is at most as long as `b`'s window. -/
theorem cand_le_bwin (a b : List Char) (ahi bhi i j : ℕ) :
    lcpLen (winSlice a i ahi) (winSlice b j bhi) ≤ bhi := by
  have h := lcpLen_le_right (winSlice a i ahi) (winSlice b j bhi)
  rw [winSlice_length] at h
  have : min bhi b.length ≤ bhi := min_le_left _ _
  omega

/-- On two identical sequences, the very first candidate `(0, 0)`
already matches the whole sequence, so `findLongestMatch` returns the
full-length block at the origin. -/
theorem findLongestMatch_self (a : List Char) (h : 0 < a.length) :
    findLongestMatch a a 0 a.length 0 a.length = (0, 0, a.length) := by
  obtain ⟨m, hm⟩ : ∃ m, a.length = m + 1 := ⟨a.length - 1, by omega⟩
  have hrange : List.range' 0 a.length = 0 :: List.range' 1 m := by
    rw [hm]; simp [List.range'_succ]
  unfold findLongestMatch
  rw [Nat.sub_zero, hrange, List.foldl_cons]
  have hfirst : outerStep a a a.length 0 a.length (0, 0, 0) 0 = (0, 0, a.length) := by
    unfold outerStep
    rw [Nat.sub_zero, hrange, List.foldl_cons]
    have hstep : innerStep a a a.length a.length 0 (0, 0, 0) 0 = (0, 0, a.length) := by
      unfold innerStep
      rw [winSlice_self, lcpLen_self]
      simp [h]
    rw [hstep]
    exact innerFold_fixed a a a.length a.length 0 _ (0, 0, a.length)
      fun j _ => cand_le_bwin a a a.length a.length 0 j
  rw [hfirst]
  exact outerFold_fixed a a a.length 0 a.length _ (0, 0, a.length)
    fun i j => cand_le_bwin a a a.length a.length i j

/-- On two identical non-empty sequences, the decomposition is a
single block covering everything. -/
theorem get_matching_blocks_self (a : List Char) (h : 0 < a.length) :
    get_matching_blocks a a = [(0, 0, a.length)] := by
  unfold get_matching_blocks
  have hfuel : a.length + a.length + 1 = (a.length + a.length) + 1 := rfl
  rw [hfuel, mbGo, findLongestMatch_self a h]
  have h0 : (0 : ℕ) + a.length = a.length := by omega
  simp only [if_pos h]
  rw [h0, mbGo_empty, mbGo_empty]
  rfl

/-- The ratio of two identical non-empty sequences is 1. -/
theorem seqRatio_self (a : List Char) (h : a ≠ []) : seqRatio a a = 1 := by
  have hlen : 0 < a.length := List.length_pos.mpr h
  unfold seqRatio
  rw [if_neg (by omega)]
  rw [get_matching_blocks_self a hlen]
  have hms : matchSum [(0, 0, a.length)] = a.length := by simp [matchSum]
  rw [hms]
  have hne : (a.length : ℚ) + (a.length : ℚ) ≠ 0 := by
    have : (0 : ℚ) < (a.length : ℚ) := by exact_mod_cast hlen
    positivity
  field_simp
  ring

/-! ### Helper lemmas about the segmenter and the aggregator -/

theorem transGo_texts (out : ℕ → RecOutcome) :
    ∀ (chunks : List ℕ) (fs : FS),
      (transGo out chunks fs).2.1 = chunks.filterMap fun i => (out i).textOf
  | [], _ => rfl
  | i :: rest, fs => by
    rw [transGo]
    cases h : out i <;>
      simp [RecOutcome.textOf, h, transGo_texts out rest (removeChunk i fs)]

theorem transGo_results (out : ℕ → RecOutcome) :
    ∀ (chunks : List ℕ) (fs : FS),
      (transGo out chunks fs).1.map Prod.fst = chunks
  | [], _ => rfl
  | i :: rest, fs => by
    rw [transGo]
    simp [transGo_results out rest (removeChunk i fs)]

theorem transGo_chunkFile (out : ℕ → RecOutcome) :
    ∀ (chunks : List ℕ) (fs : FS) (n : ℕ),
      ((transGo out chunks fs).2.2).chunk n =
        if n ∈ chunks then false else fs.chunk n
  | [], _, _ => by simp [transGo]
  | i :: rest, fs, n => by
    have hstep : (transGo out (i :: rest) fs).2.2 =
        (transGo out rest (removeChunk i fs)).2.2 := rfl
    rw [hstep, transGo_chunkFile out rest (removeChunk i fs) n]
    by_cases hmem : n ∈ rest
    · simp [hmem]
    · by_cases hni : n = i <;> simp [hmem, removeChunk, hni]

theorem transGo_audio (out : ℕ → RecOutcome) :
    ∀ (chunks : List ℕ) (fs : FS),
      ((transGo out chunks fs).2.2).audio = fs.audio
  | [], _ => rfl
  | i :: rest, fs => by
    rw [transGo]
    simpa [removeChunk] using transGo_audio out rest (removeChunk i fs)

theorem transGo_transcript (out : ℕ → RecOutcome) :
    ∀ (chunks : List ℕ) (fs : FS),
      ((transGo out chunks fs).2.2).transcript = fs.transcript
  | [], _ => rfl
  | i :: rest, fs => by
    rw [transGo]
    simpa [removeChunk] using transGo_transcript out rest (removeChunk i fs)

theorem splitGo_nofail (matFail : ℕ → Bool) :
    ∀ (spans : List (ℕ × ℚ × ℚ)) (fs : FS),
      (∀ x ∈ spans, matFail x.1 = false) →
      (splitGo matFail spans fs).1 = some (spans.map fun x => x.1)
  | [], _, _ => rfl
  | (i, s, e) :: rest, fs, h => by
    rw [splitGo]
    have hi : matFail i = false := h (i, s, e) (by simp)
    rw [if_neg (by simp [hi])]
    simp [splitGo_nofail matFail rest (writeChunk i fs)
      fun x hx => h x (by simp [hx])]

theorem splitGo_none_iff (matFail : ℕ → Bool) :
    ∀ (spans : List (ℕ × ℚ × ℚ)) (fs : FS),
      (splitGo matFail spans fs).1 = none ↔ ∃ x ∈ spans, matFail x.1 = true
  | [], _ => by simp [splitGo]
  | (i, s, e) :: rest, fs => by
    rw [splitGo]
    by_cases hi : matFail i
    · simp [hi]
    · rw [if_neg (by simp [hi])]
      show Option.map (fun x => i :: x) (splitGo matFail rest (writeChunk i fs)).1 =
          none ↔ ∃ x ∈ (i, s, e) :: rest, matFail x.1 = true
      rw [Option.map_eq_none', splitGo_none_iff matFail rest (writeChunk i fs)]
      simp [hi]

theorem splitGo_cases (matFail : ℕ → Bool) :
    ∀ (spans : List (ℕ × ℚ × ℚ)) (fs : FS),
      (splitGo matFail spans fs).1 = none ∨
      (splitGo matFail spans fs).1 = some (spans.map fun x => x.1)
  | [], _ => Or.inr rfl
  | (i, s, e) :: rest, fs => by
    rw [splitGo]
    by_cases hi : matFail i
    · simp [hi]
    · rw [if_neg (by simp [hi])]
      rcases splitGo_cases matFail rest (writeChunk i fs) with h | h <;>
        simp [h]

theorem splitGo_chunkFile_notmem (matFail : ℕ → Bool) :
    ∀ (spans : List (ℕ × ℚ × ℚ)) (fs : FS) (n : ℕ),
      n ∉ spans.map (fun x => x.1) →
      ((splitGo matFail spans fs).2).chunk n = fs.chunk n
  | [], _, _, _ => rfl
  | (i, s, e) :: rest, fs, n, h => by
    have hni : n ≠ i := by simp at h; exact fun he => absurd he h.1
    have hrest : n ∉ rest.map (fun x => x.1) := by simp at h ⊢; exact h.2
    by_cases hi : matFail i
    · rw [splitGo, if_pos hi]
    · have hstep : (splitGo matFail ((i, s, e) :: rest) fs).2 =
          (splitGo matFail rest (writeChunk i fs)).2 := by
        rw [splitGo, if_neg (by simp [hi])]
      rw [hstep, splitGo_chunkFile_notmem matFail rest (writeChunk i fs) n hrest]
      simp [writeChunk, hni]

theorem splitGo_audio (matFail : ℕ → Bool) :
    ∀ (spans : List (ℕ × ℚ × ℚ)) (fs : FS),
      ((splitGo matFail spans fs).2).audio = fs.audio
  | [], _ => rfl
  | (i, s, e) :: rest, fs => by
    rw [splitGo]
    by_cases hi : matFail i
    · simp [hi]
    · rw [if_neg (by simp [hi])]
      simpa [writeChunk] using splitGo_audio matFail rest (writeChunk i fs)

theorem splitGo_transcript (matFail : ℕ → Bool) :
    ∀ (spans : List (ℕ × ℚ × ℚ)) (fs : FS),
      ((splitGo matFail spans fs).2).transcript = fs.transcript
  | [], _ => rfl
  | (i, s, e) :: rest, fs => by
    rw [splitGo]
    by_cases hi : matFail i
    · simp [hi]
    · rw [if_neg (by simp [hi])]
      simpa [writeChunk] using splitGo_transcript matFail rest (writeChunk i fs)

theorem chunkSpans_fst (D C : ℚ) :
    (chunkSpans D C).map (fun x => x.1) = List.range (⌈D / C⌉).toNat := by
  unfold chunkSpans
  rw [List.map_map]
  exact List.map_id _

theorem chunkSpans_length (D C : ℚ) :
    (chunkSpans D C).length = (⌈D / C⌉).toNat := by
  simp [chunkSpans]

/-- The segmenter's returned list is empty exactly when the span list
is empty or some span's materialization fails. -/
theorem split_audio_empty_iff (D C : ℚ) (matFail : ℕ → Bool) (fs : FS) :
    (split_audio D C matFail fs).1 = [] ↔
      ((⌈D / C⌉).toNat = 0 ∨ ∃ i < (⌈D / C⌉).toNat, matFail i = true) := by
  unfold split_audio
  rcases splitGo_cases matFail (chunkSpans D C) fs with h | h
  · rw [h]
    simp only [Option.getD_none, true_iff]
    have := (splitGo_none_iff matFail (chunkSpans D C) fs).mp h
    obtain ⟨x, hx, hfail⟩ := this
    right
    refine ⟨x.1, ?_, hfail⟩
    have : x.1 ∈ (chunkSpans D C).map (fun x => x.1) := List.mem_map_of_mem _ hx
    rw [chunkSpans_fst] at this
    simpa using this
  · rw [h]
    simp only [Option.getD_some, chunkSpans_fst]
    constructor
    · intro he
      left
      have := congrArg List.length he
      simpa using this
    · intro hor
      rcases hor with h0 | ⟨i, hi, hfail⟩
      · simp [h0]
      · exfalso
        have hnone : (splitGo matFail (chunkSpans D C) fs).1 = none := by
          rw [splitGo_none_iff]
          refine ⟨(i, (i : ℚ) * C, min (((i : ℚ) + 1) * C) D), ?_, hfail⟩
          unfold chunkSpans
          exact List.mem_map.mpr ⟨i, List.mem_range.mpr hi, rfl⟩
        rw [h] at hnone
        exact Option.some_ne_none _ hnone

/-! ### Small filesystem projection facts -/

theorem removeAudio_chunk (fs : FS) : (removeAudio fs).chunk = fs.chunk := rfl

theorem removeAudio_transcript (fs : FS) :
    (removeAudio fs).transcript = fs.transcript := rfl

theorem writeTranscript_chunk (fs : FS) : (writeTranscript fs).chunk = fs.chunk := rfl

theorem writeAudio_chunk (fs : FS) : (writeAudio fs).chunk = fs.chunk := rfl

theorem writeAudio_transcript (fs : FS) :
    (writeAudio fs).transcript = fs.transcript := rfl

/-! ### The claims -/

/-- C1: for every ordered chunk sequence and every assignment of
per-chunk outcomes, the transcript returned by
`transcribe_audio_chunks` equals the space-joined concatenation of
exactly the `text` fragments, in chunk index order; `unrecognized`,
`requestFailed` and `unexpectedFailure` chunks contribute no text (no
placeholder appears in the joined list) and do not stop processing of
the remaining chunks (the fragment of every later `text` chunk still
appears, since the filter runs over the whole chunk list). -/
theorem C1_transcript_is_spacejoined_text_fragments
    (out : ℕ → RecOutcome) (chunks : List ℕ) (fs : FS) :
    (transcribe_audio_chunks out chunks fs).2.1 =
      List.intercalate [' '] (chunks.filterMap fun i => (out i).textOf) := by
  unfold transcribe_audio_chunks
  rw [transGo_texts]

/-- C2: for every source duration `D ≥ 0` and chunk duration `C > 0`,
the segmenter produces exactly `⌈D / C⌉` chunks, chunk `i` spanning
`[i*C, min((i+1)*C, D))`; with no materialization failure
`split_audio` returns all of them, and `D = 0` yields the empty
sequence by a normal (non-exceptional) return. -/
theorem C2_segmenter_chunk_count_and_spans (D C : ℚ) (hD : 0 ≤ D) (hC : 0 < C) :
    (chunkSpans D C).length = (⌈D / C⌉).toNat ∧
    ((chunkSpans D C).length : ℤ) = ⌈D / C⌉ ∧
    (∀ (i : ℕ) (h : i < (chunkSpans D C).length),
      (chunkSpans D C)[i] = (i, (i : ℚ) * C, min (((i : ℚ) + 1) * C) D)) ∧
    (∀ (matFail : ℕ → Bool) (fs : FS), (∀ i, matFail i = false) →
      (split_audio D C matFail fs).1 = (chunkSpans D C).map fun x => x.1) ∧
    (D = 0 → ∀ (matFail : ℕ → Bool) (fs : FS),
      (splitGo matFail (chunkSpans D C) fs).1 = some []) := by
  have hceil : (0 : ℤ) ≤ ⌈D / C⌉ := Int.ceil_nonneg (div_nonneg hD hC.le)
  refine ⟨chunkSpans_length D C, ?_, ?_, ?_, ?_⟩
  · rw [chunkSpans_length]
    exact Int.toNat_of_nonneg hceil
  · intro i h
    simp [chunkSpans]
  · intro matFail fs hm
    unfold split_audio
    rw [splitGo_nofail matFail (chunkSpans D C) fs fun x _ => hm x.1]
    rfl
  · intro hD0 matFail fs
    have : chunkSpans D C = [] := by
      simp [chunkSpans, hD0]
    rw [this]
    rfl

/-- C2 witness: a 25-second source with 10-second chunks yields
`⌈25/10⌉ = 3` chunks. -/
theorem C2_witness :
    (0 : ℚ) ≤ 25 ∧ (0 : ℚ) < 10 ∧
    (chunkSpans 25 10).length = (⌈(25 : ℚ) / 10⌉).toNat ∧
    (chunkSpans 25 10).length = 3 :=
  ⟨by norm_num, by norm_num,
    (C2_segmenter_chunk_count_and_spans 25 10 (by norm_num) (by norm_num)).1,
    by
      rw [chunkSpans_length,
        show (⌈(25 : ℚ) / 10⌉) = 3 by rw [Int.ceil_eq_iff]; constructor <;> norm_num]
      decide⟩

/-- C3: `compare_texts` returns 0 whenever either argument is empty
(the guard fires before any similarity computation), and returns 1
for any two non-empty strings that agree after lowercasing. -/
theorem C3_empty_zero_and_casefold_one :
    (∀ Z : List Char, compare_texts [] Z = 0 ∧ compare_texts Z [] = 0) ∧
    (∀ X Y : List Char, X ≠ [] → Y ≠ [] → lowerStr X = lowerStr Y →
      compare_texts X Y = 1) := by
  constructor
  · intro Z
    constructor <;> simp [compare_texts]
  · intro X Y hX hY hl
    unfold compare_texts
    rw [if_neg (by simp [hX, hY]), hl]
    exact seqRatio_self (lowerStr Y) (by simp [lowerStr, hY])

/-- C3 witness: concrete empty-argument scores and a case-insensitive
match. -/
theorem C3_witness :
    compare_texts [] ['a'] = 0 ∧ compare_texts ['a'] [] = 0 ∧
    compare_texts ['A', 'b'] ['a', 'B'] = 1 :=
  ⟨(C3_empty_zero_and_casefold_one.1 ['a']).1,
    (C3_empty_zero_and_casefold_one.1 ['a']).2,
    C3_empty_zero_and_casefold_one.2 ['A', 'b'] ['a', 'B']
      (by decide) (by decide) (by decide)⟩

/-- C6: the aggregator produces exactly one ChunkResult per chunk, in
order — the recorded chunk indices are the chunk list itself, so the
result count equals the chunk count and no chunk is dropped from
accounting. -/
theorem C6_one_result_per_chunk (out : ℕ → RecOutcome) (chunks : List ℕ) (fs : FS) :
    ((transcribe_audio_chunks out chunks fs).1).map Prod.fst = chunks ∧
    ((transcribe_audio_chunks out chunks fs).1).length = chunks.length := by
  have h : ((transcribe_audio_chunks out chunks fs).1).map Prod.fst = chunks :=
    transGo_results out chunks fs
  refine ⟨h, ?_⟩
  have := congrArg List.length h
  simpa using this

/-- C10: `split_audio` is all-or-nothing in its returned value — the
result is either the complete list of chunk paths or `[]`, never a
proper non-empty prefix, and it is `[]` exactly when there are no
spans or some chunk's materialization fails. -/
theorem C10_split_audio_all_or_nothing (D C : ℚ) (matFail : ℕ → Bool) (fs : FS) :
    ((split_audio D C matFail fs).1 = (chunkSpans D C).map (fun x => x.1) ∨
      (split_audio D C matFail fs).1 = []) ∧
    ((split_audio D C matFail fs).1 = [] ↔
      ((⌈D / C⌉).toNat = 0 ∨ ∃ i < (⌈D / C⌉).toNat, matFail i = true)) := by
  refine ⟨?_, split_audio_empty_iff D C matFail fs⟩
  unfold split_audio
  rcases splitGo_cases matFail (chunkSpans D C) fs with h | h <;> simp [h]

/-- C4 (helper): with all-failing outcomes the collected fragments
are empty. -/
theorem textOf_none_of_not_isText (o : RecOutcome) (h : o.isText = false) :
    o.textOf = none := by
  cases o with
  | text s => simp [RecOutcome.isText] at h
  | unrecognized => rfl
  | requestFailed => rfl
  | unexpectedFailure => rfl

/-- C4: a unit of work whose chunks all produce non-`text` outcomes
terminates as `failed noTranscribableAudio` (the "No text was
transcribed" branch), is never reported `completed` with an empty
transcript, and persists no transcript file. -/
theorem C4_all_nontext_fails_no_transcript (D : ℚ) (matFail : ℕ → Bool)
    (out : ℕ → RecOutcome) (persistOk : Bool)
    (hD : 0 < D) (hm : ∀ i, matFail i = false)
    (ho : ∀ i, (out i).isText = false) :
    (process_video_file (some D) matFail out persistOk FS.empty).1 =
        .failed .noTranscribableAudio ∧
    ((process_video_file (some D) matFail out persistOk FS.empty).2).transcript =
        false := by
  have hch : (split_audio D 60 matFail (writeAudio FS.empty)).1 =
      (chunkSpans D 60).map fun x => x.1 := by
    unfold split_audio
    rw [splitGo_nofail matFail (chunkSpans D 60) (writeAudio FS.empty)
      fun x _ => hm x.1]
    rfl
  have hlen : 0 < ((chunkSpans D 60).map fun x => x.1).length := by
    rw [List.length_map, chunkSpans_length]
    have h1 : (0 : ℤ) < ⌈D / 60⌉ := Int.ceil_pos.mpr (by positivity)
    omega
  have hne : (split_audio D 60 matFail (writeAudio FS.empty)).1 ≠ [] := by
    rw [hch]
    exact List.ne_nil_of_length_pos hlen
  have htext : (transcribe_audio_chunks out
      (split_audio D 60 matFail (writeAudio FS.empty)).1
      (split_audio D 60 matFail (writeAudio FS.empty)).2).2.1 = [] := by
    unfold transcribe_audio_chunks
    rw [transGo_texts]
    rw [List.filterMap_eq_nil_iff.mpr fun i _ => textOf_none_of_not_isText (out i) (ho i)]
    rfl
  rw [process_video_file_some]
  unfold process_some
  rw [if_neg hne, if_pos htext]
  refine ⟨rfl, ?_⟩
  show (removeAudio (transcribe_audio_chunks out
      (split_audio D 60 matFail (writeAudio FS.empty)).1
      (split_audio D 60 matFail (writeAudio FS.empty)).2).2.2).transcript = false
  rw [removeAudio_transcript]
  unfold transcribe_audio_chunks
  rw [transGo_transcript]
  unfold split_audio
  rw [splitGo_transcript, writeAudio_transcript]
  rfl

/-- C4 witness: one 60-second chunk, all outcomes `unrecognized`. -/
theorem C4_witness :
    (0 : ℚ) < 60 ∧
    (process_video_file (some 60) (fun _ => false) (fun _ => .unrecognized)
        true FS.empty).1 = .failed .noTranscribableAudio :=
  ⟨by norm_num,
    (C4_all_nontext_fails_no_transcript 60 (fun _ => false) (fun _ => .unrecognized)
      true (by norm_num) (fun _ => rfl) (fun _ => rfl)).1⟩

/-- C5 (amended): the orchestrator reports `segmentationFailed`
exactly when `split_audio` returns an empty chunk list, which happens
exactly when some chunk's materialization fails or the span count
`⌈D / 60⌉` is zero — in particular a zero-duration source does fail
the unit at the segmentation step. -/
theorem C5_segfail_iff_empty_chunks (D : ℚ) (matFail : ℕ → Bool)
    (out : ℕ → RecOutcome) (persistOk : Bool) (fs0 : FS) :
    ((process_video_file (some D) matFail out persistOk fs0).1 =
        .failed .segmentationFailed ↔
      (split_audio D 60 matFail (writeAudio fs0)).1 = []) ∧
    ((split_audio D 60 matFail (writeAudio fs0)).1 = [] ↔
      ((⌈D / 60⌉).toNat = 0 ∨ ∃ i < (⌈D / 60⌉).toNat, matFail i = true)) := by
  refine ⟨?_, split_audio_empty_iff D 60 matFail (writeAudio fs0)⟩
  rw [process_video_file_some]
  unfold process_some
  by_cases h : (split_audio D 60 matFail (writeAudio fs0)).1 = []
  · rw [if_pos h]
    simp [h]
  · rw [if_neg h]
    by_cases ht : (transcribe_audio_chunks out
        (split_audio D 60 matFail (writeAudio fs0)).1
        (split_audio D 60 matFail (writeAudio fs0)).2).2.1 = []
    · rw [if_pos ht]
      simp [h]
    · rw [if_neg ht]
      by_cases hp : persistOk <;> simp [hp, h]

/-- C5 counterexample: a source of duration 0 makes the unit fail at
the segmentation step (`return None` after "Failed to split audio"),
although the claim says a zero-duration source is not an error there. -/
theorem C5_counterexample :
    (process_video_file (some 0) (fun _ => false) (fun _ => .unrecognized)
        true FS.empty).1 = .failed .segmentationFailed := by
  have hempty : (split_audio 0 60 (fun _ => false) (writeAudio FS.empty)).1 = [] := by
    rw [split_audio_empty_iff]
    left
    rw [zero_div, Int.ceil_zero]
    rfl
  rw [process_video_file_some]
  unfold process_some
  rw [if_pos hempty]

/-- C7 (amended): on every exit path the extracted audio file is
removed, and when segmentation completes without a materialization
failure every chunk file is removed after its recognition attempt —
but (see the counterexample) chunks materialized before a failing
chunk inside `split_audio` are not cleaned up. -/
theorem C7_audio_always_removed_chunks_on_success
    (extracted : Option ℚ) (matFail : ℕ → Bool)
    (out : ℕ → RecOutcome) (persistOk : Bool) :
    ((process_video_file extracted matFail out persistOk FS.empty).2).audio = false ∧
    ((∀ i, matFail i = false) → ∀ n,
      ((process_video_file extracted matFail out persistOk FS.empty).2).chunk n =
        false) := by
  cases extracted with
  | none => exact ⟨rfl, fun _ _ => rfl⟩
  | some D =>
    have hfschunk : ∀ n,
        (transcribe_audio_chunks out
          (split_audio D 60 matFail (writeAudio FS.empty)).1
          (split_audio D 60 matFail (writeAudio FS.empty)).2).2.2.chunk n =
          if n ∈ (split_audio D 60 matFail (writeAudio FS.empty)).1 then false
          else ((split_audio D 60 matFail (writeAudio FS.empty)).2).chunk n := by
      intro n
      unfold transcribe_audio_chunks
      rw [transGo_chunkFile]
    constructor
    · rw [process_video_file_some]
      unfold process_some
      by_cases h : (split_audio D 60 matFail (writeAudio FS.empty)).1 = []
      · rw [if_pos h]; rfl
      · rw [if_neg h]
        by_cases ht : (transcribe_audio_chunks out
            (split_audio D 60 matFail (writeAudio FS.empty)).1
            (split_audio D 60 matFail (writeAudio FS.empty)).2).2.1 = []
        · rw [if_pos ht]; rfl
        · rw [if_neg ht]
          by_cases hp : persistOk
          · rw [if_pos hp]; rfl
          · rw [if_neg hp]; rfl
    · intro hm n
      have hch : (split_audio D 60 matFail (writeAudio FS.empty)).1 =
          (chunkSpans D 60).map fun x => x.1 := by
        unfold split_audio
        rw [splitGo_nofail matFail (chunkSpans D 60) (writeAudio FS.empty)
          fun x _ => hm x.1]
        rfl
      have hfinal : (transcribe_audio_chunks out
          (split_audio D 60 matFail (writeAudio FS.empty)).1
          (split_audio D 60 matFail (writeAudio FS.empty)).2).2.2.chunk n = false := by
        rw [hfschunk n]
        by_cases hmem : n ∈ (split_audio D 60 matFail (writeAudio FS.empty)).1
        · rw [if_pos hmem]
        · rw [if_neg hmem]
          rw [hch] at hmem
          unfold split_audio
          rw [splitGo_chunkFile_notmem matFail (chunkSpans D 60)
            (writeAudio FS.empty) n hmem]
          rfl
      rw [process_video_file_some]
      unfold process_some
      by_cases h : (split_audio D 60 matFail (writeAudio FS.empty)).1 = []
      · rw [if_pos h]
        show (removeAudio (split_audio D 60 matFail (writeAudio FS.empty)).2).chunk n =
          false
        rw [removeAudio_chunk]
        have hempty : chunkSpans D 60 = [] := by
          rw [hch] at h
          exact List.map_eq_nil_iff.mp h
        unfold split_audio
        rw [hempty]
        rfl
      · rw [if_neg h]
        by_cases ht : (transcribe_audio_chunks out
            (split_audio D 60 matFail (writeAudio FS.empty)).1
            (split_audio D 60 matFail (writeAudio FS.empty)).2).2.1 = []
        · rw [if_pos ht]
          show (removeAudio (transcribe_audio_chunks out
            (split_audio D 60 matFail (writeAudio FS.empty)).1
            (split_audio D 60 matFail (writeAudio FS.empty)).2).2.2).chunk n = false
          rw [removeAudio_chunk, hfinal]
        · rw [if_neg ht]
          by_cases hp : persistOk
          · rw [if_pos hp]
            show (removeAudio (writeTranscript (transcribe_audio_chunks out
              (split_audio D 60 matFail (writeAudio FS.empty)).1
              (split_audio D 60 matFail (writeAudio FS.empty)).2).2.2)).chunk n = false
            rw [removeAudio_chunk, writeTranscript_chunk, hfinal]
          · rw [if_neg hp]
            show (removeAudio (transcribe_audio_chunks out
              (split_audio D 60 matFail (writeAudio FS.empty)).1
              (split_audio D 60 matFail (writeAudio FS.empty)).2).2.2).chunk n = false
            rw [removeAudio_chunk, hfinal]

/-- C7 witness: on a clean one-chunk run, the audio file and chunk
file 0 are both gone afterwards. -/
theorem C7_witness :
    ((process_video_file (some 60) (fun _ => false) (fun _ => .unrecognized)
        true FS.empty).2).audio = false ∧
    ((process_video_file (some 60) (fun _ => false) (fun _ => .unrecognized)
        true FS.empty).2).chunk 0 = false :=
  ⟨(C7_audio_always_removed_chunks_on_success (some 60) (fun _ => false)
      (fun _ => .unrecognized) true).1,
    (C7_audio_always_removed_chunks_on_success (some 60) (fun _ => false)
      (fun _ => .unrecognized) true).2 (fun _ => rfl) 0⟩

/-- C7 counterexample: a 90-second source (two chunks) whose second
chunk fails to materialize leaves chunk file 0 on disk at the end of
the run — an intermediate audio file survives an exit path,
contradicting the claim. -/
theorem C7_counterexample :
    ((process_video_file (some 90) (fun i => i == 1) (fun _ => .unrecognized)
        true FS.empty).2).chunk 0 = true := by
  have hc : (⌈(90 : ℚ) / 60⌉) = 2 := by
    rw [Int.ceil_eq_iff]; constructor <;> norm_num
  obtain ⟨p, q, hspans⟩ :
      ∃ p q : ℚ × ℚ, chunkSpans 90 60 = [(0, p.1, p.2), (1, q.1, q.2)] := by
    unfold chunkSpans
    rw [hc]
    exact ⟨(_, _), (_, _), rfl⟩
  have hgo : splitGo (fun i => i == 1) (chunkSpans 90 60) (writeAudio FS.empty) =
      (none, writeChunk 0 (writeAudio FS.empty)) := by
    rw [hspans, splitGo, if_neg (by decide), splitGo, if_pos (by decide)]
    rfl
  have hsplit : split_audio 90 60 (fun i => i == 1) (writeAudio FS.empty) =
      ([], writeChunk 0 (writeAudio FS.empty)) := by
    unfold split_audio
    rw [hgo]
    rfl
  have hcond : (split_audio 90 60 (fun i => i == 1) (writeAudio FS.empty)).1 = [] := by
    rw [hsplit]
  rw [process_video_file_some]
  unfold process_some
  rw [if_pos hcond]
  show (removeAudio
      (split_audio 90 60 (fun i => i == 1) (writeAudio FS.empty)).2).chunk 0 = true
  rw [removeAudio_chunk, hsplit]
  rfl

/-- C8: for non-empty inputs `compare_texts` equals `2 * M / T` where
`T` is the combined length of the two lowercased strings and `M` the
total length of the matching blocks of the longest-first
non-overlapping block decomposition, and the value lies in
`[0, 1]` (determinism holds because the scorer is a pure function of
its two arguments). -/
theorem C8_ratio_formula_and_bounds (X Y : List Char) (hX : X ≠ []) (hY : Y ≠ []) :
    compare_texts X Y =
      2 * (matchSum (get_matching_blocks (lowerStr X) (lowerStr Y)) : ℚ) /
        (((lowerStr X).length : ℚ) + ((lowerStr Y).length : ℚ)) ∧
    0 ≤ compare_texts X Y ∧ compare_texts X Y ≤ 1 := by
  have hlX : 0 < (lowerStr X).length :=
    List.length_pos.mpr (by simp [lowerStr, hX])
  have hlY : 0 < (lowerStr Y).length :=
    List.length_pos.mpr (by simp [lowerStr, hY])
  have hformula : compare_texts X Y =
      2 * (matchSum (get_matching_blocks (lowerStr X) (lowerStr Y)) : ℚ) /
        (((lowerStr X).length : ℚ) + ((lowerStr Y).length : ℚ)) := by
    unfold compare_texts
    rw [if_neg (by simp [hX, hY])]
    unfold seqRatio
    rw [if_neg (by omega)]
  have hT : (0 : ℚ) < ((lowerStr X).length : ℚ) + ((lowerStr Y).length : ℚ) := by
    have h1 : (0 : ℚ) < ((lowerStr X).length : ℚ) := by exact_mod_cast hlX
    have h2 : (0 : ℚ) ≤ ((lowerStr Y).length : ℚ) := by positivity
    linarith
  refine ⟨hformula, ?_, ?_⟩
  · rw [hformula]
    positivity
  · rw [hformula]
    rw [div_le_one hT]
    have hM1 := matchSum_le_left (lowerStr X) (lowerStr Y)
    have hM2 := matchSum_le_right (lowerStr X) (lowerStr Y)
    exact_mod_cast (by omega :
      2 * matchSum (get_matching_blocks (lowerStr X) (lowerStr Y)) ≤
        (lowerStr X).length + (lowerStr Y).length)

/-- C8 witness: two concrete non-empty strings. -/
theorem C8_witness :
    compare_texts ['a'] ['b'] =
      2 * (matchSum (get_matching_blocks (lowerStr ['a']) (lowerStr ['b'])) : ℚ) /
        (((lowerStr ['a']).length : ℚ) + ((lowerStr ['b']).length : ℚ)) ∧
    0 ≤ compare_texts ['a'] ['b'] ∧ compare_texts ['a'] ['b'] ≤ 1 :=
  C8_ratio_formula_and_bounds ['a'] ['b'] (by decide) (by decide)

/-- C9 (amended): the batch entry point processes every listed file,
reports the `succeeded/total` summary whenever at least one eligible
file was found, and the process exit status is 0 in every case —
including a catastrophic top-level failure such as failing to create
the output directory, which is caught by the top-level
`except Exception` and only printed. -/
theorem C9_exit_always_zero (mkdirsOk : Bool) (files : List PVFInput) :
    (main mkdirsOk files).exitCode = 0 ∧
    (mkdirsOk = true → files ≠ [] →
      (main mkdirsOk files).summary = some (files.countP runOk, files.length)) := by
  constructor
  · unfold main
    by_cases h : mkdirsOk = false
    · rw [if_pos h]
    · rw [if_neg h]
      cases files <;> rfl
  · intro hmk hne
    cases files with
    | nil => exact absurd rfl hne
    | cons x xs => simp [main, hmk]

/-- C9 witness: one file that fails (extraction failure) still yields
a summary of `0/1` and exit status 0. -/
theorem C9_witness :
    (main true [⟨none, fun _ => false, fun _ => .unrecognized, true⟩]).exitCode = 0 ∧
    (main true [⟨none, fun _ => false, fun _ => .unrecognized, true⟩]).summary =
      some (0, 1) := by
  refine ⟨(C9_exit_always_zero true _).1, ?_⟩
  have h := (C9_exit_always_zero true
    [⟨none, fun _ => false, fun _ => .unrecognized, true⟩]).2 rfl (by simp)
  rw [h]
  rfl

/-- C9 counterexample: when creating the directories fails
catastrophically, the process still exits with status 0, although the
claim requires a nonzero exit status there. -/
theorem C9_counterexample : (main false []).exitCode = 0 := rfl

end VTT
